import Mathlib

/-!
# MD1001LB microwave controller: serial command protocol

A shallow embedding of `src/arduino_link.cpp`.

* A `std::string` is a `List Char`.
* The serial port is a script of what its future reads deliver (`ReadEvent`s, in
  the chunks the underlying `read_some` calls return them), a script of the
  outcome of its future writes, and a log of every buffer handed to
  `asio::write`.
* A call that blocks for ever (a `read_until` on a silent port) has status
  `none`; a call that returns has status `some code`.
* The 150 ms settle delay and the diagnostics printed on `std::cerr` are not
  modelled.
-/

namespace ArduinoLink

/-! ## Error codes (`arduino_link.cpp`, lines 24-31) -/

def API_SUCCESS : Int := 0
def API_ERROR_BAD_HANDLE : Int := -1
def API_ERROR_SERIAL_FAIL : Int := -2
def API_ERROR_BAD_TIME_STR : Int := -3
def API_ERROR_OPEN_FAIL : Int := -4
def API_ERROR_BAD_POWER : Int := -5
def API_ERROR_ARDUINO_ERR : Int := -6
def API_ERROR_UNKNOWN : Int := -7

/-! ## The transport -/

/-- What an asio call throws: an `asio::system_error`, or some other
`std::exception`. -/
inductive Fault where
  | system_error
  | other_exception
  deriving DecidableEq, Repr

/-- One `read_some` on the port: it delivers a chunk of bytes, or it throws. -/
inductive ReadEvent where
  | data (bytes : List Char)
  | fail (f : Fault)
  deriving DecidableEq, Repr

/-- The `MicrowaveSession` object: the serial port it owns.
`incoming` is what the coming reads deliver, in order (when it is exhausted a
read blocks for ever); `write_faults` is the outcome of the coming writes, in
order (`none`, or an exhausted list, is a write that succeeds); `writes` logs
every buffer passed to `asio::write`, in call order. -/
structure MicrowaveSession where
  is_open : Bool
  incoming : List ReadEvent
  write_faults : List (Option Fault)
  writes : List (List Char)
  deriving DecidableEq, Repr

/-- The result of an API call: `status` is the returned code (`none` when the
call never returns) and `session` is the object behind the handle afterwards
(`none` for the null handle). -/
abbrev Ret := Option Int × Option MicrowaveSession

/-! ## `std::string` helpers -/

/-- Whether `pat` is an initial segment of `s`. -/
def starts_with : List Char → List Char → Bool
  | _, [] => true
  | [], _ :: _ => false
  | c :: s, p :: pat => c == p && starts_with s pat

/-- The `std::string::find(const char*)` member: position of the first
occurrence of `pat` in `s`, `none` for `npos`. -/
def find_str : List Char → List Char → Option Nat
  | [], pat => if starts_with [] pat then some 0 else none
  | c :: s, pat =>
    if starts_with (c :: s) pat then some 0
    else (find_str s pat).map (· + 1)

/-- The `std::string::find(char)` member: position of the first occurrence of
`ch` in `s`, `none` for `npos`. -/
def find_char : List Char → Char → Option Nat
  | [], _ => none
  | c :: s, ch => if c = ch then some 0 else (find_char s ch).map (· + 1)

/-! ## `send_raw_command` (lines 54-116) -/

/-- Outcome of `asio::read_until(port, response_buf, '\n')`. -/
inductive ReadUntil where
  | found (buf : List Char) (incoming : List ReadEvent)
  | threw (f : Fault) (incoming : List ReadEvent)
  | blocked
  deriving DecidableEq, Repr

/-- The call `asio::read_until(port, response_buf, '\n')`: while the buffer
holds no newline, append the next chunk the port delivers. The buffer may end
up holding bytes beyond the newline. -/
def read_until (buf : List Char) (incoming : List ReadEvent) : ReadUntil :=
  if '\n' ∈ buf then .found buf incoming
  else
    match incoming with
    | [] => .blocked
    | .fail f :: rest => .threw f rest
    | .data bytes :: rest => read_until (buf ++ bytes) rest

/-- The call `std::getline(is, response_line)` on the stream over the buffer:
the characters before the first newline, and the buffer after that newline. -/
def getline : List Char → List Char × List Char
  | [] => ([], [])
  | c :: rest =>
    if c = '\n' then ([], rest)
    else ((c :: (getline rest).1), (getline rest).2)

/-- Lines 77-79: drop one trailing carriage return. -/
def strip_cr (response_line : List Char) : List Char :=
  if response_line.getLast? = some '\r' then response_line.dropLast
  else response_line

/-- How the `while (true)` loop of `send_raw_command` ends. -/
inductive LoopExit where
  | acked (buf : List Char) (incoming : List ReadEvent)
  | threw (f : Fault) (incoming : List ReadEvent)
  | blocked
  | out_of_fuel
  deriving DecidableEq, Repr

/-- The `while (true)` loop of lines 70-104, on the local `response_buf` and the
port. `fuel` bounds the number of iterations. -/
def ack_loop (is_press_or_pulse : Bool) :
    Nat → List Char → List ReadEvent → LoopExit
  | 0, _, _ => .out_of_fuel
  | fuel + 1, response_buf, incoming =>
    match read_until response_buf incoming with
    | .blocked => .blocked
    | .threw f rest => .threw f rest
    | .found buf rest =>
      let response_line := strip_cr (getline buf).1
      let response_buf := (getline buf).2
      if response_line.isEmpty then
        ack_loop is_press_or_pulse fuel response_buf rest
      else if is_press_or_pulse then
        if response_line = "OK".toList then .acked response_buf rest
        else ack_loop is_press_or_pulse fuel response_buf rest
      else
        if find_str response_line "OK".toList = some 0
            || find_str response_line "Status:".toList = some 0 then
          .acked response_buf rest
        else ack_loop is_press_or_pulse fuel response_buf rest

/-- Number of newline characters the port will ever deliver. -/
def newlines : List ReadEvent → Nat
  | [] => 0
  | .fail _ :: rest => newlines rest
  | .data bytes :: rest => bytes.count '\n' + newlines rest

/-- The two `catch` clauses of lines 105-111. -/
def catch_code : Fault → Int
  | .system_error => API_ERROR_SERIAL_FAIL
  | .other_exception => API_ERROR_UNKNOWN

/-- The function `send_raw_command`. Every iteration of its loop that goes on
takes one newline out of the port, so `newlines + 1` iterations are always
enough (`send_raw_command_fuel`). The local `response_buf` dies on return. -/
def send_raw_command (session : Option MicrowaveSession)
    (full_command : List Char) : Ret :=
  match session with
  | none => (some API_ERROR_BAD_HANDLE, none)
  | some s =>
    if !s.is_open then (some API_ERROR_BAD_HANDLE, some s)
    else
      let s1 : MicrowaveSession :=
        { s with writes := s.writes ++ [full_command ++ ['\n']],
                 write_faults := s.write_faults.tail }
      match s.write_faults.head? with
      | some (some f) => (some (catch_code f), some s1)
      | _ =>
        let is_press_or_pulse :=
          find_str full_command "press".toList = some 0
            || find_str full_command "pulse".toList = some 0
        match ack_loop is_press_or_pulse (newlines s1.incoming + 1) []
            s1.incoming with
        | .acked _ rest => (some API_SUCCESS, some { s1 with incoming := rest })
        | .threw f rest => (some (catch_code f), some { s1 with incoming := rest })
        | .blocked => (none, some { s1 with incoming := [] })
        | .out_of_fuel => (none, some { s1 with incoming := [] })

/-! ## `parse_time_to_digits` (lines 124-155) -/

def INT_MAX : Int := 2147483647
def INT_MIN : Int := -2147483648

/-- The C `isspace` in the "C" locale. -/
def isspace (c : Char) : Bool :=
  c = ' ' || c = '\t' || c = '\n' || c = Char.ofNat 11 || c = Char.ofNat 12
    || c = '\r'

/-- Leading white space is skipped by `strtol`. -/
def skip_space : List Char → List Char
  | [] => []
  | c :: s => if isspace c then skip_space s else c :: s

/-- Value of the longest run of decimal digits at the head of the text,
accumulated from `acc`; `strtol` stops at the first other character. -/
def digits_value : Nat → List Char → Nat
  | acc, [] => acc
  | acc, c :: s =>
    if c.isDigit then digits_value (acc * 10 + (c.toNat - 48)) s else acc

/-- Outcome of `std::stoi`: the value, or one of its two exceptions. -/
inductive Stoi where
  | value (v : Int)
  | invalid_argument
  | out_of_range
  deriving DecidableEq, Repr

/-- The call `std::stoi(str)` (base 10, a 32-bit `int`): skip white space, take
an optional sign, convert the leading digits and ignore whatever follows them;
`invalid_argument` without a digit, `out_of_range` outside `int`. -/
def stoi (str : List Char) : Stoi :=
  let body (negative : Bool) (s : List Char) : Stoi :=
    match s with
    | [] => .invalid_argument
    | c :: _ =>
      if c.isDigit then
        let n : Int := digits_value 0 s
        let v : Int := if negative then -n else n
        if v < INT_MIN ∨ v > INT_MAX then .out_of_range else .value v
      else .invalid_argument
  match skip_space str with
  | '-' :: s => body true s
  | '+' :: s => body false s
  | s => body false s

/-- The function `parse_time_to_digits`: `some out_digits` for `true`, `none`
for `false` (also when `stoi` throws, line 152). -/
def parse_time_to_digits (time_str : List Char) : Option (List Char) :=
  match find_char time_str ':' with
  | none => none
  | some colon_pos =>
    if colon_pos = 0 ∨ colon_pos + 1 = time_str.length then none
    else
      let min_str := time_str.take colon_pos
      let sec_str := time_str.drop (colon_pos + 1)
      if sec_str.length ≠ 2 then none
      else
        match stoi min_str with
        | .value minutes =>
          match stoi sec_str with
          | .value seconds =>
            if minutes < 0 ∨ seconds < 0 ∨ seconds > 59 then none
            else some (min_str ++ sec_str)
          | _ => none
        | _ => none

/-! ## `run_microwave` (lines 320-373) -/

/-- Lines 339-346: the number of presses of the power key for a `uint8_t`
power level. -/
def num_power_presses (power_level : Nat) : Nat :=
  if power_level > 100 ∨ power_level < 10 ∨ power_level % 10 ≠ 0 then 0
  else if power_level = 100 then 0
  else (100 - power_level) / 10 + 1

/-- Lines 360-363: the loop over the characters of `time_digits`; a result
other than `API_SUCCESS` jumps to `cleanup`. -/
def press_digits : Option MicrowaveSession → List Char → Ret
  | session, [] => (some API_SUCCESS, session)
  | session, digit :: rest =>
    match send_raw_command session ("press ".toList ++ [digit]) with
    | (none, s1) => (none, s1)
    | (some result, s1) =>
      if result ≠ API_SUCCESS then (some result, s1) else press_digits s1 rest

/-- Lines 366-369: the loop `for (int i = 0; i < num_power_presses; ++i)`. -/
def press_power : Option MicrowaveSession → Nat → Ret
  | session, 0 => (some API_SUCCESS, session)
  | session, n + 1 =>
    match send_raw_command session "press power".toList with
    | (none, s1) => (none, s1)
    | (some result, s1) =>
      if result ≠ API_SUCCESS then (some result, s1) else press_power s1 n

/-- The function `run_microwave`. The handle is the session it points to
(`none` for 0), `time_str` is `none` for a null pointer. -/
def run_microwave (handle : Option MicrowaveSession)
    (time_str : Option (List Char)) (power_level : Nat) : Ret :=
  match handle with
  | none => (some API_ERROR_BAD_HANDLE, none)
  | some session =>
    match time_str with
    | none => (some API_ERROR_BAD_TIME_STR, some session)
    | some time_str =>
      match parse_time_to_digits time_str with
      | none => (some API_ERROR_BAD_TIME_STR, some session)
      | some time_digits =>
        match send_raw_command (some session) "press cook_time".toList with
        | (none, s1) => (none, s1)
        | (some result, s1) =>
          if result ≠ API_SUCCESS then (some result, s1)
          else
            match press_digits s1 time_digits with
            | (none, s2) => (none, s2)
            | (some result, s2) =>
              if result ≠ API_SUCCESS then (some result, s2)
              else press_power s2 (num_power_presses power_level)

/-! ## Reference notions used to state the properties -/

/-- A port that answers with the given chunks, one per read, and whose writes
succeed. -/
def scripted (chunks : List String) : MicrowaveSession :=
  { is_open := true, incoming := chunks.map (fun c => .data c.toList),
    write_faults := [], writes := [] }

/-- A port that acknowledges two commands and then fails with an
`asio::system_error`. -/
def failing_after_two : MicrowaveSession :=
  { is_open := true,
    incoming := [.data "OK\n".toList, .data "OK\n".toList, .fail .system_error,
      .data "OK\n".toList],
    write_faults := [], writes := [] }

/-- The port `failing_after_two` after three commands of the run of `00:10`. -/
def failed_at_third : MicrowaveSession :=
  { is_open := true, incoming := [.data "OK\n".toList], write_faults := [],
    writes := ["press cook_time\n".toList, "press 0\n".toList,
      "press 0\n".toList] }

/-- The number a text of decimal digits writes. -/
def decimal_value (text : List Char) : Nat :=
  text.foldl (fun a c => a * 10 + (c.toNat - 48)) 0

/-- The command list of a run, in the words of the specification: enter
cook-time mode, one digit press per character, then the power presses. -/
def command_list (digits : List Char) (presses : Nat) : List (List Char) :=
  "press cook_time".toList :: digits.map (fun c => "press ".toList ++ [c])
    ++ List.replicate presses "press power".toList

/-- Send the commands in order through `send_raw_command`, stopping at the
first that does not return `API_SUCCESS`. -/
def send_all : Option MicrowaveSession → List (List Char) → Ret
  | session, [] => (some API_SUCCESS, session)
  | session, c :: cs =>
    match send_raw_command session c with
    | (none, s1) => (none, s1)
    | (some result, s1) =>
      if result ≠ API_SUCCESS then (some result, s1) else send_all s1 cs

/-- Every command of the list, sent in order, returns `API_SUCCESS`. -/
def all_acked : Option MicrowaveSession → List (List Char) → Bool
  | _, [] => true
  | session, c :: cs =>
    (send_raw_command session c).1 = some API_SUCCESS
      && all_acked (send_raw_command session c).2 cs

/-- The bytes the port delivers before its first failure. -/
def stream_bytes : List ReadEvent → List Char
  | [] => []
  | .fail _ :: _ => []
  | .data bytes :: rest => bytes ++ stream_bytes rest

/-- The response lines as they travel: each followed by a newline. -/
def wire : List (List Char) → List Char
  | [] => []
  | l :: ls => l ++ '\n' :: wire ls

/-- The acknowledgment mode in the words of the specification: Double when the
command text starts with `press` or `pulse`. -/
def double_mode (command : List Char) : Bool :=
  starts_with command "press".toList || starts_with command "pulse".toList

/-- The acknowledgment rule in the words of the specification, on a line as
received: after removing one trailing carriage return the line is non-empty,
and it equals `OK` (Double) or starts with `OK` or `Status:` (Single). -/
def line_acks (double : Bool) (line : List Char) : Bool :=
  !(strip_cr line).isEmpty &&
    (if double then strip_cr line = "OK".toList
     else starts_with (strip_cr line) "OK".toList
        || starts_with (strip_cr line) "Status:".toList)

/-- A received line terminates the wait of the given command. -/
def accepts (command line : List Char) : Bool :=
  line_acks (double_mode command) line

/-! ## `send_microwave_command` and `stop_microwave` (lines 307-318, 375-383) -/

/-- The function `send_microwave_command`; `command` is `none` for a null
pointer. -/
def send_microwave_command (handle : Option MicrowaveSession)
    (command : Option (List Char)) : Ret :=
  match handle with
  | none => (some API_ERROR_BAD_HANDLE, none)
  | some session =>
    match command with
    | none => (some API_ERROR_UNKNOWN, some session)
    | some command => send_raw_command (some session) command

/-- The function `stop_microwave`. -/
def stop_microwave (handle : Option MicrowaveSession) : Ret :=
  match handle with
  | none => (some API_ERROR_BAD_HANDLE, none)
  | some session => send_raw_command (some session) "press stop".toList

/-! ## The startup drain of `open_microwave_controller` (lines 196-274)

Time is counted in milliseconds from the start of the drain. The state is what
the three handlers share: the clock, `last_data`, `done`, the two timers (the
expiry of the wait that is pending, if any) and the `async_read_some`
operation. -/

def max_total : Nat := 400
def quiet_window : Nat := 120

/-- The `async_read_some` operation: none outstanding, one outstanding, or one
cancelled whose handler has not run yet. -/
inductive ReadOp where
  | idle
  | pending
  | aborted
  deriving DecidableEq, Repr

/-- The error codes the read handler tells apart. -/
inductive ErrorCode where
  | operation_aborted
  | other
  deriving DecidableEq, Repr

structure DrainState where
  now : Nat
  last_data : Nat
  done : Bool
  max_timer : Option Nat
  quiet_timer : Option Nat
  read : ReadOp
  deriving DecidableEq, Repr

/-- The call `session->port.cancel(ignore_ec)`: an outstanding read is
aborted. The timers are not touched. -/
def port_cancel (s : DrainState) : DrainState :=
  match s.read with
  | .pending => { s with read := .aborted }
  | _ => s

/-- The handler of `max_timer.async_wait` (lines 211-217). -/
def max_timer_handler (s : DrainState) : DrainState :=
  if !s.done then port_cancel { s with done := true } else s

/-- The function `arm_quiet` (lines 221-222): a wait of a full quiet window
from now. -/
def arm_quiet (s : DrainState) : DrainState :=
  { s with quiet_timer := some (s.now + quiet_window) }

/-- The handler of `quiet_timer.async_wait` (lines 223-234). -/
def quiet_timer_handler (s : DrainState) : DrainState :=
  if s.done then s
  else if s.now - s.last_data ≥ quiet_window then
    port_cancel { s with done := true }
  else arm_quiet s

/-- The function `do_read` (lines 241-262): start a read unless done. -/
def do_read (s : DrainState) : DrainState :=
  if s.done then s else { s with read := .pending }

/-- The handler of `async_read_some` (lines 244-261), called with the error
code (`none` for success) and the number of bytes. -/
def read_handler (s : DrainState) (ec : Option ErrorCode) (n : Nat) :
    DrainState :=
  if s.done then s
  else if ec = none ∧ n > 0 then do_read { s with last_data := s.now }
  else if ec = some .operation_aborted then s
  else if ec ≠ none then port_cancel { s with done := true }
  else do_read s

/-- The state when `session->io.run()` is entered (lines 200-265): both timers
armed, a read outstanding. -/
def drain_start : DrainState :=
  { now := 0, last_data := 0, done := false, max_timer := some max_total,
    quiet_timer := some quiet_window, read := .pending }

/-- What the event loop can dispatch: the expiry of either timer, the
completion at time `t` of the outstanding read, and the completion of a
cancelled read. -/
inductive DrainEvent where
  | max_timer_expires
  | quiet_timer_expires
  | read_completes (t : Nat) (ec : Option ErrorCode) (n : Nat)
  | read_aborts
  deriving DecidableEq, Repr

/-- Whether `t` is not after the expiry `timer` of a pending wait. -/
def not_after (t : Nat) (timer : Option Nat) : Bool :=
  match timer with
  | none => true
  | some e => t ≤ e

/-- One dispatch of the event loop. A timer expires at its expiry time, and
not before a wait that expires earlier; a read completes no earlier than now
and no later than the expiry of a pending wait. `none` when the event cannot
happen in the state. -/
def drain_step (s : DrainState) : DrainEvent → Option DrainState
  | .max_timer_expires =>
    match s.max_timer with
    | none => none
    | some t =>
      if s.now ≤ t ∧ not_after t s.quiet_timer then
        some (max_timer_handler { s with now := t, max_timer := none })
      else none
  | .quiet_timer_expires =>
    match s.quiet_timer with
    | none => none
    | some t =>
      if s.now ≤ t ∧ not_after t s.max_timer then
        some (quiet_timer_handler { s with now := t, quiet_timer := none })
      else none
  | .read_completes t ec n =>
    if s.read = .pending ∧ s.now ≤ t ∧ not_after t s.max_timer
        ∧ not_after t s.quiet_timer then
      some (read_handler { s with now := t, read := .idle } ec n)
    else none
  | .read_aborts =>
    if s.read = .aborted then
      some (read_handler { s with read := .idle } (some .operation_aborted) 0)
    else none

/-- A sequence of dispatches. -/
def drain_run : DrainState → List DrainEvent → Option DrainState
  | s, [] => some s
  | s, e :: es =>
    match drain_step s e with
    | none => none
    | some s1 => drain_run s1 es

/-- The call `session->io.run()` returns: no wait and no read is outstanding. -/
def io_run_returns (s : DrainState) : Bool :=
  s.max_timer = none && s.quiet_timer = none && s.read = .idle

/-- A silent port: the quiet timer expires, then the cancelled read and the
other timer are dispatched. -/
def silent_port : List DrainEvent :=
  [.quiet_timer_expires, .read_aborts, .max_timer_expires]

/-- A busy port: bytes every 100 ms. -/
def busy_port : List DrainEvent :=
  [.read_completes 100 none 8, .quiet_timer_expires, .read_completes 200 none 8,
    .quiet_timer_expires, .read_completes 300 none 8, .quiet_timer_expires,
    .read_completes 400 none 8, .max_timer_expires, .read_aborts,
    .quiet_timer_expires]

/-- The hard-cap wait is pending until it expires at 400 ms, and nothing else
completes it. -/
def hard_cap_pending (s : DrainState) : Prop :=
  s.max_timer = some max_total ∨ (s.max_timer = none ∧ max_total ≤ s.now)

instance (s : DrainState) : Decidable (hard_cap_pending s) := by
  unfold hard_cap_pending
  infer_instance

/-- A byte at 100 ms, the quiet timer at 120 ms, a byte at 230 ms. -/
def late_byte : List DrainEvent :=
  [.read_completes 100 none 8, .quiet_timer_expires, .read_completes 230 none 8]

/-! ## Lemmas on the string helpers -/

theorem find_str_zero (s pat : List Char) :
    find_str s pat = some 0 ↔ starts_with s pat = true := by
  cases s with
  | nil => simp [find_str]
  | cons c s =>
    by_cases h : starts_with (c :: s) pat = true
    · simp [find_str, h]
    · simp [find_str, h]

theorem getline_line (l rest : List Char) (h : '\n' ∉ l) :
    getline (l ++ '\n' :: rest) = (l, rest) := by
  induction l with
  | nil => simp [getline]
  | cons c l ih =>
    have hc : c ≠ '\n' := by
      intro e
      exact h (by simp [e])
    have hl : '\n' ∉ l := by
      intro e
      exact h (by simp [e])
    simp [getline, hc, ih hl]

theorem split_first_newline (buf : List Char) (h : '\n' ∈ buf) :
    ∃ l r, buf = l ++ '\n' :: r ∧ '\n' ∉ l := by
  induction buf with
  | nil => simp at h
  | cons c buf ih =>
    by_cases hc : c = '\n'
    · exact ⟨[], buf, by simp [hc], by simp⟩
    · have hmem : '\n' ∈ buf := by
        rcases List.mem_cons.mp h with e | e
        · exact absurd e.symm hc
        · exact e
      obtain ⟨l, r, hb, hl⟩ := ih hmem
      refine ⟨c :: l, r, by simp [hb], ?_⟩
      intro e
      rcases List.mem_cons.mp e with e1 | e1
      · exact hc e1.symm
      · exact hl e1

theorem line_unique (l l2 r r2 : List Char) (hl : '\n' ∉ l) (hl2 : '\n' ∉ l2)
    (h : l ++ '\n' :: r = l2 ++ '\n' :: r2) : l = l2 ∧ r = r2 := by
  have h1 := getline_line l r hl
  rw [h, getline_line l2 r2 hl2] at h1
  exact ⟨(Prod.mk.inj h1).1.symm, (Prod.mk.inj h1).2.symm⟩

/-! ## Lemmas on the read loop -/

theorem read_until_of_mem (buf : List Char) (incoming : List ReadEvent)
    (h : '\n' ∈ buf) : read_until buf incoming = .found buf incoming := by
  cases incoming with
  | nil => simp [read_until, h]
  | cons e rest => cases e <;> simp [read_until, h]

/-- When the buffer followed by the coming bytes starts with a complete line,
`read_until` returns with that line at the head of the buffer, and nothing is
lost: the rest of the buffer followed by the unread bytes is what came after
the line. -/
theorem read_until_line (incoming : List ReadEvent) :
    ∀ (buf l rest : List Char), '\n' ∉ l →
      buf ++ stream_bytes incoming = l ++ '\n' :: rest →
      ∃ b evs, read_until buf incoming = .found (l ++ '\n' :: b) evs
        ∧ b ++ stream_bytes evs = rest := by
  induction incoming with
  | nil =>
    intro buf l rest hl h
    simp only [stream_bytes, List.append_nil] at h
    refine ⟨rest, [], ?_, by simp [stream_bytes]⟩
    rw [read_until_of_mem buf [] (by simp [h]), h]
  | cons e evs ih =>
    intro buf l rest hl h
    by_cases hb : '\n' ∈ buf
    · obtain ⟨l2, r2, hbuf, hl2⟩ := split_first_newline buf hb
      have h2 : l2 ++ '\n' :: (r2 ++ stream_bytes (e :: evs)) = l ++ '\n' :: rest := by
        rw [← h, hbuf]; simp
      obtain ⟨e1, e2⟩ := line_unique _ _ _ _ hl2 hl h2
      refine ⟨r2, e :: evs, ?_, e2⟩
      rw [read_until_of_mem buf _ hb, hbuf, e1]
    · cases e with
      | fail f =>
        simp only [stream_bytes, List.append_nil] at h
        exact absurd (by simp [h]) hb
      | data bytes =>
        have h2 : (buf ++ bytes) ++ stream_bytes evs = l ++ '\n' :: rest := by
          rw [← h]; simp [stream_bytes]
        obtain ⟨b, evs1, hr, hrest⟩ := ih (buf ++ bytes) l rest hl h2
        exact ⟨b, evs1, by simp [read_until, hb, hr], hrest⟩

/-- Without a newline in the buffer or in the coming bytes, `read_until` never
returns normally. -/
theorem read_until_no_line (incoming : List ReadEvent) :
    ∀ (buf : List Char), '\n' ∉ buf ++ stream_bytes incoming →
      read_until buf incoming = .blocked
        ∨ ∃ f evs, read_until buf incoming = .threw f evs := by
  induction incoming with
  | nil =>
    intro buf h
    left
    simp only [stream_bytes, List.append_nil] at h
    simp [read_until, h]
  | cons e evs ih =>
    intro buf h
    have hb : '\n' ∉ buf := fun e1 => h (List.mem_append_left _ e1)
    cases e with
    | fail f => exact Or.inr ⟨f, evs, by simp [read_until, hb]⟩
    | data bytes =>
      have h2 : '\n' ∉ (buf ++ bytes) ++ stream_bytes evs := by
        simpa [stream_bytes] using h
      rcases ih (buf ++ bytes) h2 with h3 | ⟨f, r, h3⟩
      · exact Or.inl (by simp [read_until, hb, h3])
      · exact Or.inr ⟨f, r, by simp [read_until, hb, h3]⟩

/-- One iteration of the loop on a complete line. -/
theorem ack_loop_step (double : Bool) (fuel : Nat) (buf l b : List Char)
    (incoming evs : List ReadEvent) (hl : '\n' ∉ l)
    (h : read_until buf incoming = .found (l ++ '\n' :: b) evs) :
    ack_loop double (fuel + 1) buf incoming =
      if line_acks double l = true then .acked b evs
      else ack_loop double fuel b evs := by
  cases double <;>
    simp only [ack_loop, h, getline_line l b hl, line_acks, find_str_zero] <;>
    by_cases he : (strip_cr l).isEmpty = true <;> simp [he]

theorem read_until_count (incoming : List ReadEvent) :
    ∀ (buf b : List Char) (evs : List ReadEvent),
      read_until buf incoming = .found b evs →
      '\n' ∈ b ∧ b.count '\n' + newlines evs = buf.count '\n' + newlines incoming := by
  induction incoming with
  | nil =>
    intro buf b evs h
    by_cases hb : '\n' ∈ buf
    · rw [read_until_of_mem buf [] hb] at h
      injection h with h1 h2
      subst h1 h2
      exact ⟨hb, rfl⟩
    · simp [read_until, hb] at h
  | cons e rest ih =>
    intro buf b evs h
    by_cases hb : '\n' ∈ buf
    · rw [read_until_of_mem buf _ hb] at h
      injection h with h1 h2
      subst h1 h2
      exact ⟨hb, rfl⟩
    · cases e with
      | fail f => simp [read_until, hb] at h
      | data bytes =>
        simp only [read_until, hb, if_false] at h
        obtain ⟨h1, h2⟩ := ih (buf ++ bytes) b evs h
        refine ⟨h1, ?_⟩
        rw [h2, List.count_append]
        simp only [newlines]
        omega

theorem getline_count (b : List Char) (h : '\n' ∈ b) :
    (getline b).2.count '\n' + 1 = b.count '\n' := by
  obtain ⟨l, r, rfl, hl⟩ := split_first_newline b h
  rw [getline_line l r hl, List.count_append, List.count_cons_self,
    List.count_eq_zero_of_not_mem hl]
  simp only
  omega

/-- The loop never runs out of fuel when it is given more iterations than
there are newlines in its buffer and on the port: each iteration that goes on
takes one newline out. -/
theorem ack_loop_fuel (double : Bool) (fuel : Nat) :
    ∀ (buf : List Char) (incoming : List ReadEvent),
      buf.count '\n' + newlines incoming < fuel →
      ack_loop double fuel buf incoming ≠ .out_of_fuel := by
  induction fuel with
  | zero => intro buf incoming h; omega
  | succ n ih =>
    intro buf incoming h
    unfold ack_loop
    cases hr : read_until buf incoming with
    | blocked => simp
    | threw f rest => simp
    | found b rest =>
      obtain ⟨hmem, hcount⟩ := read_until_count incoming buf b rest hr
      have hline := getline_count b hmem
      have hnext := ih (getline b).2 rest (by omega)
      simp only
      split
      · exact hnext
      · split
        · split
          · simp
          · exact hnext
        · split
          · simp
          · exact hnext

/-- The fuel `send_raw_command` gives its loop is never used up. -/
theorem send_raw_command_fuel (double : Bool) (incoming : List ReadEvent) :
    ack_loop double (newlines incoming + 1) [] incoming ≠ .out_of_fuel :=
  ack_loop_fuel double (newlines incoming + 1) [] incoming (by simp)

theorem wire_append (xs ys : List (List Char)) :
    wire (xs ++ ys) = wire xs ++ wire ys := by
  induction xs with
  | nil => simp [wire]
  | cons x xs ih => simp [wire, ih]

/-- When the buffer followed by the coming bytes holds lines that do not
acknowledge and then one that does, the loop ends on that line, having
consumed exactly the lines up to it. -/
theorem ack_loop_accept (double : Bool) (pre : List (List Char)) :
    ∀ (fuel : Nat) (buf : List Char) (incoming : List ReadEvent)
      (t rest : List Char),
      (∀ l ∈ pre, '\n' ∉ l ∧ line_acks double l = false) → '\n' ∉ t →
      line_acks double t = true →
      buf ++ stream_bytes incoming = wire (pre ++ [t]) ++ rest →
      pre.length < fuel →
      ∃ b evs, ack_loop double fuel buf incoming = .acked b evs
        ∧ b ++ stream_bytes evs = rest := by
  induction pre with
  | nil =>
    intro fuel buf incoming t rest _ ht hacc hs hfuel
    obtain ⟨n, rfl⟩ : ∃ n, fuel = n + 1 := ⟨fuel - 1, by omega⟩
    have hs2 : buf ++ stream_bytes incoming = t ++ '\n' :: rest := by
      rw [hs]; simp [wire]
    obtain ⟨b, evs, hr, hrest⟩ := read_until_line incoming buf t rest ht hs2
    exact ⟨b, evs, by rw [ack_loop_step double n buf t b incoming evs ht hr]; simp [hacc],
      hrest⟩
  | cons l pre ih =>
    intro fuel buf incoming t rest hpre ht hacc hs hfuel
    obtain ⟨n, rfl⟩ : ∃ n, fuel = n + 1 := ⟨fuel - 1, by omega⟩
    have hl := hpre l (by simp)
    have hs2 : buf ++ stream_bytes incoming
        = l ++ '\n' :: (wire (pre ++ [t]) ++ rest) := by
      rw [hs]; simp [wire]
    obtain ⟨b, evs, hr, hrest⟩ := read_until_line incoming buf l _ hl.1 hs2
    rw [ack_loop_step double n buf l b incoming evs hl.1 hr]
    simp only [hl.2, Bool.false_eq_true, if_false]
    exact ih n b evs t rest (fun x hx => hpre x (by simp [hx])) ht hacc hrest
      (by simpa using hfuel)

/-- When no complete line among the coming bytes acknowledges, the loop never
ends normally: it blocks on the silent port or leaves by an exception. -/
theorem ack_loop_reject (double : Bool) (ls : List (List Char)) :
    ∀ (fuel : Nat) (buf : List Char) (incoming : List ReadEvent)
      (tail : List Char),
      (∀ l ∈ ls, '\n' ∉ l ∧ line_acks double l = false) → '\n' ∉ tail →
      buf ++ stream_bytes incoming = wire ls ++ tail →
      ls.length < fuel →
      ack_loop double fuel buf incoming = .blocked
        ∨ ∃ f evs, ack_loop double fuel buf incoming = .threw f evs := by
  induction ls with
  | nil =>
    intro fuel buf incoming tail _ ht hs hfuel
    obtain ⟨n, rfl⟩ : ∃ n, fuel = n + 1 := ⟨fuel - 1, by omega⟩
    have hno : '\n' ∉ buf ++ stream_bytes incoming := by
      rw [hs]; simpa [wire] using ht
    rcases read_until_no_line incoming buf hno with h | ⟨f, evs, h⟩
    · exact Or.inl (by simp [ack_loop, h])
    · exact Or.inr ⟨f, evs, by simp [ack_loop, h]⟩
  | cons l ls ih =>
    intro fuel buf incoming tail hls ht hs hfuel
    obtain ⟨n, rfl⟩ : ∃ n, fuel = n + 1 := ⟨fuel - 1, by omega⟩
    have hl := hls l (by simp)
    have hs2 : buf ++ stream_bytes incoming = l ++ '\n' :: (wire ls ++ tail) := by
      rw [hs]; simp [wire]
    obtain ⟨b, evs, hr, hrest⟩ := read_until_line incoming buf l _ hl.1 hs2
    rw [ack_loop_step double n buf l b incoming evs hl.1 hr]
    simp only [hl.2, Bool.false_eq_true, if_false]
    exact ih n b evs tail (fun x hx => hls x (by simp [hx])) ht hrest
      (by simpa using hfuel)

theorem wire_count (ls : List (List Char)) : ls.length ≤ (wire ls).count '\n' := by
  induction ls with
  | nil => simp [wire]
  | cons l ls ih =>
    simp only [wire, List.length_cons, List.count_append, List.count_cons_self]
    omega

theorem stream_bytes_count (incoming : List ReadEvent) :
    (stream_bytes incoming).count '\n' ≤ newlines incoming := by
  induction incoming with
  | nil => simp [stream_bytes, newlines]
  | cons e evs ih =>
    cases e with
    | fail f => simp [stream_bytes, newlines]
    | data bytes =>
      simp only [stream_bytes, newlines, List.count_append]
      omega

/-- The fuel `send_raw_command` gives its loop covers every complete line the
port can deliver. -/
theorem fuel_enough (incoming : List ReadEvent) (ls : List (List Char))
    (tail : List Char) (h : stream_bytes incoming = wire ls ++ tail) :
    ls.length < newlines incoming + 1 := by
  have h1 := stream_bytes_count incoming
  have h2 := wire_count ls
  rw [h, List.count_append] at h1
  omega

/-- The prefix test of line 67 is the Double mode of the specification. -/
theorem is_press_or_pulse_eq (full_command : List Char) :
    (decide (find_str full_command "press".toList = some 0)
      || decide (find_str full_command "pulse".toList = some 0))
      = double_mode full_command := by
  simp [find_str_zero, double_mode]

/-- On an open port whose write succeeds, `send_raw_command` is its loop. -/
theorem send_raw_command_open (s : MicrowaveSession) (full_command : List Char)
    (hopen : s.is_open = true)
    (hwrite : ∀ f, s.write_faults.head? ≠ some (some f)) :
    send_raw_command (some s) full_command =
      match ack_loop (double_mode full_command) (newlines s.incoming + 1) []
          s.incoming with
      | .acked _ rest =>
        (some API_SUCCESS, some { s with
          writes := s.writes ++ [full_command ++ ['\n']],
          write_faults := s.write_faults.tail, incoming := rest })
      | .threw f rest =>
        (some (catch_code f), some { s with
          writes := s.writes ++ [full_command ++ ['\n']],
          write_faults := s.write_faults.tail, incoming := rest })
      | .blocked =>
        (none, some { s with
          writes := s.writes ++ [full_command ++ ['\n']],
          write_faults := s.write_faults.tail, incoming := [] })
      | .out_of_fuel =>
        (none, some { s with
          writes := s.writes ++ [full_command ++ ['\n']],
          write_faults := s.write_faults.tail, incoming := [] }) := by
  unfold send_raw_command
  simp only [hopen, Bool.not_true, Bool.false_eq_true, if_false]
  cases hw : s.write_faults.head? with
  | none => simp only [is_press_or_pulse_eq]
  | some o =>
    cases o with
    | none => simp only [is_press_or_pulse_eq]
    | some f => exact absurd hw (hwrite f)

/-! ## Lemmas on command sequences -/

/-- On an open port a call of `send_raw_command` logs exactly one write, the
command and its newline, whatever the outcome, and the port stays open. -/
theorem send_raw_command_writes (s : MicrowaveSession)
    (full_command : List Char) (hopen : s.is_open = true) :
    ∃ s1, (send_raw_command (some s) full_command).2 = some s1
      ∧ s1.is_open = true
      ∧ s1.writes = s.writes ++ [full_command ++ ['\n']] := by
  unfold send_raw_command
  simp only [hopen, Bool.not_true, Bool.false_eq_true, if_false]
  split
  · exact ⟨_, rfl, rfl, rfl⟩
  · split <;> exact ⟨_, rfl, rfl, rfl⟩

/-- The codes `send_raw_command` can return. -/
theorem send_raw_command_codes (session : Option MicrowaveSession)
    (full_command : List Char) (r : Int)
    (h : (send_raw_command session full_command).1 = some r) :
    r = API_SUCCESS ∨ r = API_ERROR_BAD_HANDLE ∨ r = API_ERROR_SERIAL_FAIL
      ∨ r = API_ERROR_UNKNOWN := by
  have hc : ∀ f, catch_code f = API_ERROR_SERIAL_FAIL
      ∨ catch_code f = API_ERROR_UNKNOWN := by
    intro f
    cases f <;> simp [catch_code]
  unfold send_raw_command at h
  split at h
  · simp only [Option.some.injEq] at h
    exact Or.inr (Or.inl h.symm)
  · split at h
    · simp only [Option.some.injEq] at h
      exact Or.inr (Or.inl h.symm)
    · split at h
      · simp only [Option.some.injEq] at h
        rw [← h]
        exact Or.inr (Or.inr (hc _))
      · dsimp only at h
        split at h
        · simp only [Option.some.injEq] at h
          exact Or.inl h.symm
        · simp only [Option.some.injEq] at h
          rw [← h]
          exact Or.inr (Or.inr (hc _))
        · simp at h
        · simp at h

theorem send_all_append (xs ys : List (List Char)) :
    ∀ session, send_all session (xs ++ ys) =
      match send_all session xs with
      | (none, s1) => (none, s1)
      | (some result, s1) =>
        if result ≠ API_SUCCESS then (some result, s1) else send_all s1 ys := by
  induction xs with
  | nil => intro session; simp [send_all]
  | cons c xs ih =>
    intro session
    simp only [List.cons_append, send_all]
    rcases h : send_raw_command session c with ⟨st, s1⟩
    cases st with
    | none => simp
    | some r =>
      by_cases hr : r = API_SUCCESS
      · simp [hr, ih]
      · simp [hr]

theorem press_digits_eq (digits : List Char) :
    ∀ session, press_digits session digits
      = send_all session (digits.map (fun c => "press ".toList ++ [c])) := by
  induction digits with
  | nil => intro session; rfl
  | cons d ds ih =>
    intro session
    simp only [press_digits, List.map_cons, send_all]
    rcases h : send_raw_command session ("press ".toList ++ [d]) with ⟨st, s1⟩
    cases st with
    | none => rfl
    | some r => simp only [ih]

theorem press_power_eq (n : Nat) :
    ∀ session, press_power session n
      = send_all session (List.replicate n "press power".toList) := by
  induction n with
  | zero => intro session; rfl
  | succ n ih =>
    intro session
    simp only [press_power, List.replicate_succ, send_all]
    rcases h : send_raw_command session "press power".toList with ⟨st, s1⟩
    cases st with
    | none => rfl
    | some r => simp only [ih]

/-- With a time text the parser accepts, `run_microwave` sends the command
list of the specification, in order, stopping at the first command that does
not return `API_SUCCESS`. -/
theorem run_microwave_eq (s : MicrowaveSession) (time_str digits : List Char)
    (power_level : Nat) (hparse : parse_time_to_digits time_str = some digits) :
    run_microwave (some s) (some time_str) power_level
      = send_all (some s) (command_list digits (num_power_presses power_level)) := by
  have hlist : command_list digits (num_power_presses power_level)
      = "press cook_time".toList :: (digits.map (fun c => "press ".toList ++ [c])
          ++ List.replicate (num_power_presses power_level) "press power".toList) := rfl
  rw [hlist]
  unfold run_microwave
  simp only [hparse, send_all]
  rcases h : send_raw_command (some s) "press cook_time".toList with ⟨st, s1⟩
  cases st with
  | none => rfl
  | some r =>
    by_cases hr : r = API_SUCCESS
    · simp only [hr, ne_eq, not_true_eq_false, if_false, send_all_append,
        press_digits_eq, press_power_eq]
    · simp [hr]

/-- Commands that are all acknowledged are all sent: the call returns
`API_SUCCESS` and what follows is sent from the state they leave. -/
theorem send_all_acked (pre more : List (List Char)) :
    ∀ session, all_acked session pre = true →
      (send_all session pre).1 = some API_SUCCESS
        ∧ send_all session (pre ++ more) = send_all (send_all session pre).2 more := by
  induction pre with
  | nil => intro session _; simp [send_all]
  | cons c pre ih =>
    intro session h
    simp only [all_acked, Bool.and_eq_true, decide_eq_true_eq] at h
    rcases hc : send_raw_command session c with ⟨st, s1⟩
    rw [hc] at h
    simp only at h
    obtain ⟨h1, h2⟩ := h
    subst h1
    simp only [List.cons_append, send_all, hc, ne_eq, not_true_eq_false, if_false]
    exact ih s1 h2

/-- The write log after a list of commands sent on an open port: when they
are all acknowledged, one write per command, in order. -/
theorem send_all_writes (cmds : List (List Char)) :
    ∀ (s : MicrowaveSession), s.is_open = true →
      all_acked (some s) cmds = true →
      ∃ s1, send_all (some s) cmds = (some API_SUCCESS, some s1)
        ∧ s1.is_open = true
        ∧ s1.writes = s.writes ++ cmds.map (fun c => c ++ ['\n']) := by
  induction cmds with
  | nil => intro s hopen _; exact ⟨s, rfl, hopen, by simp⟩
  | cons c cmds ih =>
    intro s hopen h
    simp only [all_acked, Bool.and_eq_true, decide_eq_true_eq] at h
    obtain ⟨s1, hs1, ho1, hw1⟩ := send_raw_command_writes s c hopen
    rcases hc : send_raw_command (some s) c with ⟨st, s1o⟩
    rw [hc] at h hs1
    simp only at h hs1
    obtain ⟨h1, h2⟩ := h
    subst h1 hs1
    obtain ⟨s2, hs2, ho2, hw2⟩ := ih s1 ho1 h2
    refine ⟨s2, ?_, ho2, ?_⟩
    · simp only [send_all, hc, ne_eq, not_true_eq_false, if_false, hs2]
    · rw [hw2, hw1]; simp

/-! ## Lemmas on the time parser -/

theorem find_char_none (t : List Char) (ch : Char) (h : ch ∉ t) :
    find_char t ch = none := by
  induction t with
  | nil => rfl
  | cons c t ih =>
    have hc : c ≠ ch := fun e => h (by simp [e])
    have ht : ch ∉ t := fun e => h (by simp [e])
    simp [find_char, hc, ih ht]

theorem find_char_split (m sec : List Char) (ch : Char) (h : ch ∉ m) :
    find_char (m ++ ch :: sec) ch = some m.length := by
  induction m with
  | nil => simp [find_char]
  | cons c m ih =>
    have hc : c ≠ ch := fun e => h (by simp [e])
    have hm : ch ∉ m := fun e => h (by simp [e])
    simp [find_char, hc, ih hm]

/-- The parser on a text split at its first colon into minutes and seconds. -/
theorem parse_time_split (m sec : List Char) (h : ':' ∉ m) :
    parse_time_to_digits (m ++ ':' :: sec) =
      if m = [] ∨ sec = [] then none
      else if sec.length ≠ 2 then none
      else
        match stoi m with
        | .value minutes =>
          match stoi sec with
          | .value seconds =>
            if minutes < 0 ∨ seconds < 0 ∨ seconds > 59 then none
            else some (m ++ sec)
          | _ => none
        | _ => none := by
  have htake : (m ++ ':' :: sec).take m.length = m := by simp
  have hdrop : (m ++ ':' :: sec).drop (m.length + 1) = sec := by
    rw [List.drop_append_eq_append_drop]
    simp
  have hcond : (m.length = 0 ∨ m.length + 1 = (m ++ ':' :: sec).length)
      ↔ (m = [] ∨ sec = []) := by
    simp only [List.length_append, List.length_cons, List.length_eq_zero]
    constructor
    · rintro (h1 | h1)
      · exact Or.inl h1
      · right
        have : sec.length = 0 := by omega
        exact List.length_eq_zero.mp this
    · rintro (h1 | h1)
      · exact Or.inl h1
      · right
        simp [h1]
  unfold parse_time_to_digits
  simp only [find_char_split m sec ':' h, htake, hdrop, hcond]

/-- What a decimal digit is not. -/
theorem digit_facts (c : Char) (h : c.isDigit = true) :
    isspace c = false ∧ c ≠ '-' ∧ c ≠ '+' ∧ c ≠ ':' ∧ c.toNat - 48 ≤ 9 := by
  have hv : 48 ≤ c.toNat ∧ c.toNat ≤ 57 := by
    simp only [Char.isDigit, Bool.and_eq_true, decide_eq_true_eq] at h
    exact ⟨h.1, h.2⟩
  have hne : ∀ d : Char, (d.toNat < 48 ∨ 57 < d.toNat) → c ≠ d := by
    intro d hd e
    rw [e] at hv
    omega
  refine ⟨?_, hne _ (by decide), hne _ (by decide), hne _ (by decide), by omega⟩
  simp only [isspace, Bool.or_eq_false_iff, decide_eq_false_iff_not]
  exact ⟨⟨⟨⟨⟨hne _ (by decide), hne _ (by decide)⟩, hne _ (by decide)⟩,
    hne _ (by decide)⟩, hne _ (by decide)⟩, hne _ (by decide)⟩

/-- On a non-empty text that starts with a decimal digit `std::stoi` converts
the leading digits, and throws only when the value does not fit an `int`. -/
theorem stoi_digit_head (c : Char) (rest : List Char) (h : c.isDigit = true) :
    stoi (c :: rest) =
      if INT_MAX < (digits_value 0 (c :: rest) : Int) then .out_of_range
      else .value (digits_value 0 (c :: rest)) := by
  obtain ⟨hsp, hminus, hplus, _, _⟩ := digit_facts c h
  have hlow : ¬ ((digits_value 0 (c :: rest) : Int) < INT_MIN) := by
    have : (0 : Int) ≤ (digits_value 0 (c :: rest) : Int) := Int.ofNat_nonneg _
    simp only [INT_MIN]
    omega
  unfold stoi
  simp only [skip_space, hsp, Bool.false_eq_true, if_false]
  split
  · rename_i heq
    exact absurd (List.cons.inj heq).1 hminus
  · rename_i heq
    exact absurd (List.cons.inj heq).1 hplus
  · simp only [h, if_true, Bool.false_eq_true, if_false, hlow, false_or, gt_iff_lt]

theorem digits_value_foldl (m : List Char) :
    ∀ acc, (∀ c ∈ m, c.isDigit = true) →
      digits_value acc m = m.foldl (fun a c => a * 10 + (c.toNat - 48)) acc := by
  induction m with
  | nil => intro acc _; rfl
  | cons c m ih =>
    intro acc h
    have hc := h c (by simp)
    simp only [digits_value, hc, if_true, List.foldl_cons]
    exact ih _ (fun x hx => h x (by simp [hx]))

/-- `std::stoi` on two decimal digits. -/
theorem stoi_two_digits (d1 d2 : Char) (h1 : d1.isDigit = true)
    (h2 : d2.isDigit = true) :
    stoi [d1, d2] = .value (((d1.toNat - 48) * 10 + (d2.toNat - 48) : Nat) : Int) := by
  have e : digits_value 0 [d1, d2] = (d1.toNat - 48) * 10 + (d2.toNat - 48) := by
    simp [digits_value, h1, h2]
  have b1 := (digit_facts d1 h1).2.2.2.2
  have b2 := (digit_facts d2 h2).2.2.2.2
  rw [stoi_digit_head d1 [d2] h1, e]
  have : ¬ (INT_MAX < (((d1.toNat - 48) * 10 + (d2.toNat - 48) : Nat) : Int)) := by
    simp only [INT_MAX]
    omega
  simp only [this, if_false]

/-- The texts the parser rejects for their shape or their seconds. -/
theorem parse_time_rejects (t : List Char)
    (h : ':' ∉ t ∨ ∃ m sec, t = m ++ ':' :: sec ∧ ':' ∉ m ∧
      (m = [] ∨ sec = [] ∨ sec.length ≠ 2 ∨
        ∃ d1 d2, sec = [d1, d2] ∧ d1.isDigit = true ∧ d2.isDigit = true
          ∧ 59 < (d1.toNat - 48) * 10 + (d2.toNat - 48))) :
    parse_time_to_digits t = none := by
  rcases h with h | ⟨m, sec, rfl, hm, h⟩
  · simp [parse_time_to_digits, find_char_none t ':' h]
  · rw [parse_time_split m sec hm]
    rcases h with h | h | h | ⟨d1, d2, rfl, h1, h2, hv⟩
    · simp [h]
    · simp [h]
    · by_cases hc : m = [] ∨ sec = []
      · simp [hc]
      · simp [hc, h]
    · by_cases hc : m = [] ∨ [d1, d2] = []
      · rw [if_pos hc]
      · rw [if_neg hc, stoi_two_digits d1 d2 h1 h2]
        generalize (d1.toNat - 48) * 10 + (d2.toNat - 48) = n at hv
        have hgt : (n : Int) > 59 := by omega
        simp only [List.length_cons, List.length_nil, ne_eq, not_true_eq_false,
          if_false]
        cases stoi m <;> simp [hgt]

/-- The parser on decimal minutes that fit an `int` and two-digit seconds up
to 59. -/
theorem parse_time_accepts (m : List Char) (d1 d2 : Char) (hne : m ≠ [])
    (hm : ∀ c ∈ m, c.isDigit = true) (hfit : decimal_value m ≤ 2147483647)
    (h1 : d1.isDigit = true) (h2 : d2.isDigit = true)
    (hs : (d1.toNat - 48) * 10 + (d2.toNat - 48) ≤ 59) :
    parse_time_to_digits (m ++ ':' :: [d1, d2]) = some (m ++ [d1, d2]) := by
  have hcolon : ':' ∉ m := fun e => (digit_facts ':' (hm ':' e)).2.2.2.1 rfl
  obtain ⟨c, rest, rfl⟩ : ∃ c rest, m = c :: rest := by
    cases m with
    | nil => exact absurd rfl hne
    | cons c rest => exact ⟨c, rest, rfl⟩
  have hval : digits_value 0 (c :: rest) = decimal_value (c :: rest) :=
    digits_value_foldl (c :: rest) 0 hm
  rw [parse_time_split (c :: rest) [d1, d2] hcolon,
    stoi_digit_head c rest (hm c (by simp)), stoi_two_digits d1 d2 h1 h2, hval]
  generalize (d1.toNat - 48) * 10 + (d2.toNat - 48) = n at hs
  have hmax : ¬ (INT_MAX < ((decimal_value (c :: rest) : Nat) : Int)) := by
    simp only [INT_MAX]
    omega
  have hcond : ¬ (((decimal_value (c :: rest) : Nat) : Int) < 0
      ∨ (n : Int) < 0 ∨ (n : Int) > 59) := by omega
  simp only [hmax, if_false, List.length_cons, List.length_nil, ne_eq,
    not_true_eq_false, hcond]
  simp

theorem send_all_codes (cmds : List (List Char)) :
    ∀ (session : Option MicrowaveSession) (r : Int),
      (send_all session cmds).1 = some r →
      r = API_SUCCESS ∨ r = API_ERROR_BAD_HANDLE ∨ r = API_ERROR_SERIAL_FAIL
        ∨ r = API_ERROR_UNKNOWN := by
  induction cmds with
  | nil =>
    intro session r h
    simp only [send_all, Option.some.injEq] at h
    exact Or.inl h.symm
  | cons c cmds ih =>
    intro session r h
    simp only [send_all] at h
    rcases hc : send_raw_command session c with ⟨st, s1⟩
    rw [hc] at h
    cases st with
    | none => simp at h
    | some r1 =>
      by_cases hr : r1 = API_SUCCESS
      · simp only [hr, ne_eq, not_true_eq_false, if_false] at h
        exact ih s1 r h
      · simp only [ne_eq, hr, not_false_eq_true, if_true, Option.some.injEq] at h
        subst h
        exact send_raw_command_codes session c r1 (by rw [hc])

/-- The codes `run_microwave` can return. -/
theorem run_microwave_codes (handle : Option MicrowaveSession)
    (time_str : Option (List Char)) (power_level : Nat) (r : Int)
    (h : (run_microwave handle time_str power_level).1 = some r) :
    r = API_SUCCESS ∨ r = API_ERROR_BAD_HANDLE ∨ r = API_ERROR_SERIAL_FAIL
      ∨ r = API_ERROR_BAD_TIME_STR ∨ r = API_ERROR_UNKNOWN := by
  cases handle with
  | none =>
    simp only [run_microwave, Option.some.injEq] at h
    exact Or.inr (Or.inl h.symm)
  | some s =>
    cases time_str with
    | none =>
      simp only [run_microwave, Option.some.injEq] at h
      exact Or.inr (Or.inr (Or.inr (Or.inl h.symm)))
    | some t =>
      cases hp : parse_time_to_digits t with
      | none =>
        simp only [run_microwave, hp, Option.some.injEq] at h
        exact Or.inr (Or.inr (Or.inr (Or.inl h.symm)))
      | some digits =>
        rw [run_microwave_eq s t digits power_level hp] at h
        rcases send_all_codes _ _ r h with h1 | h1 | h1 | h1
        · exact Or.inl h1
        · exact Or.inr (Or.inl h1)
        · exact Or.inr (Or.inr (Or.inl h1))
        · exact Or.inr (Or.inr (Or.inr (Or.inr h1)))

/-- Decimal minutes that do not fit an `int` make the parser fail: `std::stoi`
throws `out_of_range`. -/
theorem parse_time_overflow (m sec : List Char) (hne : m ≠ [])
    (hm : ∀ c ∈ m, c.isDigit = true) (hbig : 2147483647 < decimal_value m) :
    parse_time_to_digits (m ++ ':' :: sec) = none := by
  have hcolon : ':' ∉ m := fun e => (digit_facts ':' (hm ':' e)).2.2.2.1 rfl
  obtain ⟨c, rest, rfl⟩ : ∃ c rest, m = c :: rest := by
    cases m with
    | nil => exact absurd rfl hne
    | cons c rest => exact ⟨c, rest, rfl⟩
  have hval : digits_value 0 (c :: rest) = decimal_value (c :: rest) :=
    digits_value_foldl (c :: rest) 0 hm
  have hmax : INT_MAX < ((decimal_value (c :: rest) : Nat) : Int) := by
    simp only [INT_MAX]
    omega
  rw [parse_time_split (c :: rest) sec hcolon,
    stoi_digit_head c rest (hm c (by simp)), hval, if_pos hmax]
  split
  · rfl
  · split <;> rfl

/-- A text whose first character is neither white space, a sign nor a decimal
digit makes `std::stoi` throw `invalid_argument`. -/
theorem stoi_invalid (c : Char) (rest : List Char) (hd : c.isDigit = false)
    (hsp : isspace c = false) (hminus : c ≠ '-') (hplus : c ≠ '+') :
    stoi (c :: rest) = .invalid_argument := by
  unfold stoi
  simp only [skip_space, hsp, Bool.false_eq_true, if_false]
  split
  · rename_i heq
    exact absurd (List.cons.inj heq).1 hminus
  · rename_i heq
    exact absurd (List.cons.inj heq).1 hplus
  · simp only [hd, Bool.false_eq_true, if_false]

/-! ## The command protocol -/

/-- C1: on an open session whose write goes through, for every command text and
every response stream (in whatever chunks it arrives): when the complete lines
the port delivers are lines that do not satisfy the command's acknowledgment
rule followed by a line `t` that does, `send_raw_command` returns `API_SUCCESS`
and its loop ends having taken exactly the lines up to and including `t` (what
is left in its buffer followed by what is unread on the port is what came after
`t`); when no complete line satisfies the rule before the stream ends, it does
not return `API_SUCCESS`. The rule (`accepts`): after removing one trailing
carriage return the line is non-empty and equals `OK` for a command that starts
with `press` or `pulse`, starts with `OK` or `Status:` for any other. -/
theorem send_raw_command_first_ack (s : MicrowaveSession) (command : List Char)
    (hopen : s.is_open = true)
    (hwrite : ∀ f, s.write_faults.head? ≠ some (some f)) :
    (∀ (pre : List (List Char)) (t rest : List Char),
        (∀ l ∈ pre, '\n' ∉ l ∧ accepts command l = false) →
        '\n' ∉ t → accepts command t = true →
        stream_bytes s.incoming = wire (pre ++ [t]) ++ rest →
        (send_raw_command (some s) command).1 = some API_SUCCESS
          ∧ ∃ b evs,
              ack_loop (double_mode command) (newlines s.incoming + 1) []
                s.incoming = .acked b evs
              ∧ b ++ stream_bytes evs = rest)
    ∧ (∀ (ls : List (List Char)) (tail : List Char),
        (∀ l ∈ ls, '\n' ∉ l ∧ accepts command l = false) →
        '\n' ∉ tail →
        stream_bytes s.incoming = wire ls ++ tail →
        (send_raw_command (some s) command).1 ≠ some API_SUCCESS) := by
  constructor
  · intro pre t rest hpre ht hacc hs
    have hfuel : pre.length < newlines s.incoming + 1 := by
      have := fuel_enough s.incoming (pre ++ [t]) rest hs
      simp only [List.length_append, List.length_singleton] at this
      omega
    obtain ⟨b, evs, hloop, hrest⟩ :=
      ack_loop_accept (double_mode command) pre (newlines s.incoming + 1) []
        s.incoming t rest hpre ht hacc (by simpa using hs) hfuel
    refine ⟨?_, b, evs, hloop, hrest⟩
    rw [send_raw_command_open s command hopen hwrite, hloop]
  · intro ls tail hls ht hs
    have hfuel := fuel_enough s.incoming ls tail hs
    rw [send_raw_command_open s command hopen hwrite]
    rcases ack_loop_reject (double_mode command) ls (newlines s.incoming + 1) []
        s.incoming tail hls ht (by simpa using hs) hfuel with h | ⟨f, evs, h⟩
    · rw [h]; simp
    · rw [h]
      cases f <;> simp [catch_code, API_ERROR_SERIAL_FAIL, API_ERROR_UNKNOWN,
        API_SUCCESS]

/-- A `press` command answered, in two chunks that cut across the lines, by
`OK: pressing`, a blank line, `OK` and a further line: the call succeeds. -/
theorem send_raw_command_first_ack_witness :
    (send_raw_command (some (scripted ["OK: pre", "ssing\r\n\r\nOK\r\nOK: x\n"]))
      "press 1".toList).1 = some API_SUCCESS :=
  ((send_raw_command_first_ack
      (scripted ["OK: pre", "ssing\r\n\r\nOK\r\nOK: x\n"]) "press 1".toList rfl
      (fun f => by simp [scripted])).1
    ["OK: pressing\r".toList, "\r".toList] "OK\r".toList "OK: x\n".toList
    (by decide) (by decide) (by decide) (by decide)).1

/-! ## The command sequencer -/

/-- C2: for every time text the parser accepts, with digit string `digits`, and
every power level, `run_microwave` on an open session whose every command is
acknowledged returns `API_SUCCESS` and writes exactly, in this order: `press
cook_time`, then `press c` for each character `c` of `digits`, then `press
power` as many times as the power computation says; that is `1 + length digits
+ presses` writes. -/
theorem run_microwave_commands (s : MicrowaveSession)
    (time_str digits : List Char) (power_level : Nat)
    (hopen : s.is_open = true)
    (hparse : parse_time_to_digits time_str = some digits)
    (hack : all_acked (some s)
      (command_list digits (num_power_presses power_level)) = true) :
    ∃ s1, run_microwave (some s) (some time_str) power_level
        = (some API_SUCCESS, some s1)
      ∧ s1.writes = s.writes ++ (["press cook_time\n".toList]
          ++ digits.map (fun c => "press ".toList ++ [c] ++ ['\n'])
          ++ List.replicate (num_power_presses power_level)
              "press power\n".toList)
      ∧ s1.writes.length
          = s.writes.length + (1 + digits.length + num_power_presses power_level) := by
  obtain ⟨s1, hrun, _, hw⟩ := send_all_writes _ s hopen hack
  have hw2 : s1.writes = s.writes ++ (["press cook_time\n".toList]
      ++ digits.map (fun c => "press ".toList ++ [c] ++ ['\n'])
      ++ List.replicate (num_power_presses power_level)
          "press power\n".toList) := by
    rw [hw]
    congr 1
    simp only [command_list, List.map_cons, List.map_append, List.map_map,
      List.map_replicate, List.cons_append, List.singleton_append]
    rfl
  refine ⟨s1, ?_, hw2, ?_⟩
  · rw [run_microwave_eq s time_str digits power_level hparse, hrun]
  · rw [hw2]
    simp only [List.length_append, List.length_map, List.length_replicate,
      List.length_singleton]

/-- The run of `00:10` at 50 percent on a port that answers `OK` to each
command: cook time, the four digits, six presses of the power key. -/
theorem run_microwave_commands_witness :
    ∃ s1, run_microwave (some (scripted (List.replicate 11 "OK\n")))
        (some "00:10".toList) 50 = (some API_SUCCESS, some s1)
      ∧ s1.writes = ["press cook_time\n".toList, "press 0\n".toList,
          "press 0\n".toList, "press 1\n".toList, "press 0\n".toList,
          "press power\n".toList, "press power\n".toList,
          "press power\n".toList, "press power\n".toList,
          "press power\n".toList, "press power\n".toList] := by
  obtain ⟨s1, h1, h2, _⟩ :=
    run_microwave_commands (scripted (List.replicate 11 "OK\n")) "00:10".toList
      "0010".toList 50 rfl (by decide) (by decide!)
  exact ⟨s1, h1, by rw [h2]; decide⟩

/-- C3: in a run on an open session, when the commands before the `k`-th
(`pre`, so `k = length pre + 1`) are all acknowledged and the `k`-th (`c`)
returns a status `e` other than `API_SUCCESS`, `run_microwave` returns `e` in
the state that call left, and the writes of the run are exactly those `k`
commands: nothing is sent after the failure and nothing is sent again. -/
theorem run_microwave_stops (s : MicrowaveSession)
    (time_str digits : List Char) (power_level : Nat)
    (pre post : List (List Char)) (c : List Char) (e : Int)
    (s2 : Option MicrowaveSession)
    (hopen : s.is_open = true)
    (hparse : parse_time_to_digits time_str = some digits)
    (hlist : command_list digits (num_power_presses power_level)
      = pre ++ c :: post)
    (hack : all_acked (some s) pre = true)
    (hfail : send_raw_command (send_all (some s) pre).2 c = (some e, s2))
    (he : e ≠ API_SUCCESS) :
    run_microwave (some s) (some time_str) power_level = (some e, s2)
      ∧ ∃ s3, s2 = some s3
          ∧ s3.writes = s.writes ++ (pre ++ [c]).map (fun x => x ++ ['\n']) := by
  obtain ⟨s1, hpre, ho1, hw1⟩ := send_all_writes pre s hopen hack
  rw [hpre] at hfail
  simp only at hfail
  constructor
  · rw [run_microwave_eq s time_str digits power_level hparse, hlist,
      (send_all_acked pre (c :: post) (some s) hack).2, hpre]
    simp [send_all, hfail, he]
  · obtain ⟨s3, hs3, _, hw3⟩ := send_raw_command_writes s1 c ho1
    rw [hfail] at hs3
    simp only at hs3
    refine ⟨s3, hs3, ?_⟩
    rw [hw3, hw1]
    simp

/-- The run of `00:10` at 50 percent on a port that acknowledges two commands
and then fails: the third command returns `API_ERROR_SERIAL_FAIL`, so does the
run, and three commands were written. -/
theorem run_microwave_stops_witness :
    run_microwave (some failing_after_two) (some "00:10".toList) 50
      = (some API_ERROR_SERIAL_FAIL, some failed_at_third) :=
  (run_microwave_stops failing_after_two "00:10".toList "0010".toList 50
    ["press cook_time".toList, "press 0".toList]
    ["press 1".toList, "press 0".toList, "press power".toList,
      "press power".toList, "press power".toList, "press power".toList,
      "press power".toList, "press power".toList]
    "press 0".toList API_ERROR_SERIAL_FAIL (some failed_at_third) rfl
    (by decide) (by decide) (by decide) (by decide) (by decide)).1

/-! ## The time encoder -/

/-- C4: for every non-null handle, every power level and every time text in
which the colon is absent, or which splits at its (first) colon into a minutes
part `m` and a seconds part `sec` where `m` is empty (the colon is the first
character), or `sec` is empty (the colon is the last character), or `sec` is not
exactly two characters, or `sec` is a two-digit number above 59:
`run_microwave` returns `API_ERROR_BAD_TIME_STR` and leaves the session as it
was, so nothing is written to the port and nothing is read from it. -/
theorem run_microwave_bad_time (s : MicrowaveSession) (power_level : Nat)
    (t : List Char)
    (h : ':' ∉ t ∨ ∃ m sec, t = m ++ ':' :: sec ∧ ':' ∉ m ∧
      (m = [] ∨ sec = [] ∨ sec.length ≠ 2 ∨
        ∃ d1 d2, sec = [d1, d2] ∧ d1.isDigit = true ∧ d2.isDigit = true
          ∧ 59 < (d1.toNat - 48) * 10 + (d2.toNat - 48))) :
    run_microwave (some s) (some t) power_level
      = (some API_ERROR_BAD_TIME_STR, some s) := by
  simp [run_microwave, parse_time_rejects t h]

/-- The five texts `1:3`, `:30`, `1:`, `130` and `0:60` are refused on a port
that would acknowledge, and the port is untouched. -/
theorem run_microwave_bad_time_witness :
    run_microwave (some (scripted ["OK\n"])) (some "1:3".toList) 50
        = (some API_ERROR_BAD_TIME_STR, some (scripted ["OK\n"]))
      ∧ run_microwave (some (scripted ["OK\n"])) (some ":30".toList) 50
        = (some API_ERROR_BAD_TIME_STR, some (scripted ["OK\n"]))
      ∧ run_microwave (some (scripted ["OK\n"])) (some "1:".toList) 50
        = (some API_ERROR_BAD_TIME_STR, some (scripted ["OK\n"]))
      ∧ run_microwave (some (scripted ["OK\n"])) (some "130".toList) 50
        = (some API_ERROR_BAD_TIME_STR, some (scripted ["OK\n"]))
      ∧ run_microwave (some (scripted ["OK\n"])) (some "0:60".toList) 50
        = (some API_ERROR_BAD_TIME_STR, some (scripted ["OK\n"])) :=
  ⟨run_microwave_bad_time _ 50 "1:3".toList
      (Or.inr ⟨"1".toList, "3".toList, rfl, by decide,
        Or.inr (Or.inr (Or.inl (by decide)))⟩),
    run_microwave_bad_time _ 50 ":30".toList
      (Or.inr ⟨[], "30".toList, rfl, by decide, Or.inl rfl⟩),
    run_microwave_bad_time _ 50 "1:".toList
      (Or.inr ⟨"1".toList, [], rfl, by decide, Or.inr (Or.inl rfl)⟩),
    run_microwave_bad_time _ 50 "130".toList (Or.inl (by decide)),
    run_microwave_bad_time _ 50 "0:60".toList
      (Or.inr ⟨"0".toList, "60".toList, rfl, by decide,
        Or.inr (Or.inr (Or.inr ⟨'6', '0', rfl, by decide, by decide,
          by decide⟩))⟩)⟩

/-- C5, as the code has it: for every text `m ++ ":" ++ s` where `m` is a
non-empty string of decimal digits, of any width, and `s` is two decimal
digits of value at most 59, `parse_time_to_digits` succeeds and returns
`m ++ s` (the separator removed, the width of the minutes kept) when the value
of `m` is at most 2147483647, and fails when it is larger (the value must fit
the `int` of `std::stoi`). -/
theorem parse_time_to_digits_keeps_width (m : List Char) (d1 d2 : Char)
    (hne : m ≠ []) (hm : ∀ c ∈ m, c.isDigit = true)
    (h1 : d1.isDigit = true) (h2 : d2.isDigit = true)
    (hs : (d1.toNat - 48) * 10 + (d2.toNat - 48) ≤ 59) :
    parse_time_to_digits (m ++ ':' :: [d1, d2])
      = if decimal_value m ≤ 2147483647 then some (m ++ [d1, d2]) else none := by
  by_cases hfit : decimal_value m ≤ 2147483647
  · rw [if_pos hfit]
    exact parse_time_accepts m d1 d2 hne hm hfit h1 h2 hs
  · rw [if_neg hfit]
    exact parse_time_overflow m [d1, d2] hne hm (by omega)

/-- The texts `1:30` and `01:30` give `130` and `0130`; `2147483648:00` is
refused. -/
theorem parse_time_to_digits_keeps_width_witness :
    parse_time_to_digits "1:30".toList = some "130".toList
      ∧ parse_time_to_digits "01:30".toList = some "0130".toList
      ∧ parse_time_to_digits "2147483648:00".toList = none :=
  ⟨(parse_time_to_digits_keeps_width "1".toList '3' '0' (by decide) (by decide)
      (by decide) (by decide) (by decide)).trans (by decide),
    (parse_time_to_digits_keeps_width "01".toList '3' '0' (by decide) (by decide)
      (by decide) (by decide) (by decide)).trans (by decide),
    (parse_time_to_digits_keeps_width "2147483648".toList '0' '0' (by decide)
      (by decide) (by decide) (by decide) (by decide)).trans (by decide)⟩

/-- C5 as stated fails for minutes of any length: the minutes `2147483648` are
ten decimal digits and the seconds `00` are two, yet `2147483648:00` is
refused, `std::stoi` throwing `out_of_range`; one less is accepted. -/
theorem parse_time_to_digits_long_minutes :
    (∀ c ∈ "2147483648".toList, c.isDigit = true)
      ∧ stoi "2147483648".toList = .out_of_range
      ∧ parse_time_to_digits ("2147483648".toList ++ ':' :: "00".toList) = none
      ∧ parse_time_to_digits ("2147483647".toList ++ ':' :: "00".toList)
          = some "214748364700".toList := by
  decide

/-- C6 at its failing inputs: the parser accepts a letter after the minutes, a
second separator, a sign and a blank, and returns them among the "digits";
`run_microwave` then asks the keypad for the key `a`. -/
theorem parse_time_to_digits_non_digits :
    parse_time_to_digits "1a:30".toList = some "1a30".toList
      ∧ parse_time_to_digits "1:3:".toList = some "13:".toList
      ∧ parse_time_to_digits "+1:30".toList = some "+130".toList
      ∧ parse_time_to_digits " 1:30".toList = some " 130".toList
      ∧ parse_time_to_digits "1:3x".toList = some "13x".toList
      ∧ (run_microwave (some (scripted (List.replicate 5 "OK\n")))
            (some "1a:30".toList) 100).2.map (fun x => x.writes)
          = some ["press cook_time\n".toList, "press 1\n".toList,
              "press a\n".toList, "press 3\n".toList, "press 0\n".toList] := by
  decide!

/-! ## The power encoder -/

/-- C7: for every power level of the `uint8_t` range, the number of presses of
the power key is 0 when the level is below 10, above 100, not a multiple of 10
or equal to 100, and `(100 - level) / 10 + 1` otherwise; the computation is
total, and `run_microwave` never returns `API_ERROR_BAD_POWER`. -/
theorem num_power_presses_policy (power_level : Nat) (h : power_level < 256) :
    ((power_level < 10 ∨ 100 < power_level ∨ power_level % 10 ≠ 0
        ∨ power_level = 100) → num_power_presses power_level = 0)
      ∧ (¬ (power_level < 10 ∨ 100 < power_level ∨ power_level % 10 ≠ 0
            ∨ power_level = 100) →
          num_power_presses power_level = (100 - power_level) / 10 + 1)
      ∧ ∀ handle time_str,
          (run_microwave handle time_str power_level).1
            ≠ some API_ERROR_BAD_POWER := by
  refine ⟨?_, ?_, ?_⟩
  · intro hp
    unfold num_power_presses
    split
    · rfl
    · split
      · rfl
      · omega
  · intro hp
    unfold num_power_presses
    split
    · omega
    · split
      · omega
      · rfl
  · intro handle time_str hr
    have := run_microwave_codes handle time_str power_level _ hr
    simp [API_ERROR_BAD_POWER, API_SUCCESS, API_ERROR_BAD_HANDLE,
      API_ERROR_SERIAL_FAIL, API_ERROR_BAD_TIME_STR, API_ERROR_UNKNOWN] at this

/-- At 50 percent: six presses. -/
theorem num_power_presses_policy_witness :
    num_power_presses 50 = (100 - 50) / 10 + 1 :=
  (num_power_presses_policy 50 (by decide)).2.1 (by decide)

/-- C8 at its failing inputs: the power computation gives two presses at 90
percent and ten at 10 percent, one more than the comment above it (lines
336-338) announces; the other listed values are as listed. -/
theorem num_power_presses_values :
    num_power_presses 90 = 2 ∧ num_power_presses 10 = 10
      ∧ num_power_presses 100 = 0 ∧ num_power_presses 50 = 6
      ∧ num_power_presses 55 = 0 ∧ num_power_presses 5 = 0
      ∧ num_power_presses 150 = 0 := by
  decide

/-! ## The width of the minutes -/

/-- C9 as stated fails: `1:30`, whose minutes are one digit (the input of
Test 4 in `main_tester.cpp`), is not refused. On a port that acknowledges,
`run_microwave` returns `API_SUCCESS`, not `API_ERROR_BAD_TIME_STR`, and has
keyed cook time, 1, 3, 0. -/
theorem run_microwave_one_digit_minutes :
    run_microwave (some (scripted (List.replicate 4 "OK\n")))
        (some "1:30".toList) 100
      = (some API_SUCCESS, some
          { scripted [] with
            writes := ["press cook_time\n".toList, "press 1\n".toList,
              "press 3\n".toList, "press 0\n".toList] }) := by
  decide!

/-- C9, as the code has it: the minutes part must be there and must be a
number, whatever its width. For every session and power level, a time text
whose minutes part (before the first colon) is empty or starts with a
character that is neither a decimal digit, white space nor a sign makes
`run_microwave` return `API_ERROR_BAD_TIME_STR` with the session untouched;
and a time text of decimal minutes of any width whose value is at most
2147483647, a colon and two-digit seconds up to 59 never makes it return
`API_ERROR_BAD_TIME_STR`. -/
theorem run_microwave_minutes_part (s : MicrowaveSession) (power_level : Nat) :
    (∀ (m sec : List Char), ':' ∉ m →
        (m = [] ∨ ∃ c rest, m = c :: rest ∧ c.isDigit = false
          ∧ isspace c = false ∧ c ≠ '-' ∧ c ≠ '+') →
        run_microwave (some s) (some (m ++ ':' :: sec)) power_level
          = (some API_ERROR_BAD_TIME_STR, some s))
      ∧ (∀ (m : List Char) (d1 d2 : Char), m ≠ [] →
          (∀ c ∈ m, c.isDigit = true) → decimal_value m ≤ 2147483647 →
          d1.isDigit = true → d2.isDigit = true →
          (d1.toNat - 48) * 10 + (d2.toNat - 48) ≤ 59 →
          (run_microwave (some s) (some (m ++ ':' :: [d1, d2])) power_level).1
            ≠ some API_ERROR_BAD_TIME_STR) := by
  constructor
  · intro m sec hm h
    have hp : parse_time_to_digits (m ++ ':' :: sec) = none := by
      rw [parse_time_split m sec hm]
      rcases h with h | ⟨c, rest, rfl, hd, hsp, hminus, hplus⟩
      · simp [h]
      · rw [stoi_invalid c rest hd hsp hminus hplus]
        split
        · rfl
        · split <;> rfl
    simp [run_microwave, hp]
  · intro m d1 d2 hne hm hfit h1 h2 hs hr
    rw [run_microwave_eq s _ _ power_level
      (parse_time_accepts m d1 d2 hne hm hfit h1 h2 hs)] at hr
    have := send_all_codes _ _ _ hr
    simp [API_SUCCESS, API_ERROR_BAD_HANDLE, API_ERROR_SERIAL_FAIL,
      API_ERROR_BAD_TIME_STR, API_ERROR_UNKNOWN] at this

/-- The text `a:30` is refused, and `1:30` is not, on a silent port. -/
theorem run_microwave_minutes_part_witness :
    run_microwave (some (scripted [])) (some "a:30".toList) 100
        = (some API_ERROR_BAD_TIME_STR, some (scripted []))
      ∧ (run_microwave (some (scripted [])) (some "1:30".toList) 100).1
        ≠ some API_ERROR_BAD_TIME_STR :=
  ⟨(run_microwave_minutes_part (scripted []) 100).1 "a".toList "30".toList
      (by decide) (Or.inr ⟨'a', [], rfl, by decide, by decide, by decide,
        by decide⟩),
    (run_microwave_minutes_part (scripted []) 100).2 "1".toList '3' '0'
      (by decide) (by decide) (by decide) (by decide) (by decide) (by decide)⟩

/-! ## What a call leaves on the port -/

/-- C10 at its failing input: the device answers `status` with the two lines
`Status: idle` and `OK`. When both lines arrive in one read, the call returns
on the first, nothing is left on the port, and a following `press 1` waits for
ever: the line `OK` was taken off the port with the first and dropped with the
local buffer. When the same bytes arrive in two reads the line `OK` is still
on the port and the following `press 1` ends on it. -/
theorem send_raw_command_drops_buffered_lines :
    send_raw_command (some (scripted ["Status: idle\nOK\n"])) "status".toList
        = (some API_SUCCESS, some
            { scripted [] with writes := ["status\n".toList] })
      ∧ (send_raw_command
          (send_raw_command (some (scripted ["Status: idle\nOK\n"]))
            "status".toList).2 "press 1".toList).1 = none
      ∧ send_raw_command (some (scripted ["Status: idle\n", "OK\n"]))
          "status".toList
        = (some API_SUCCESS, some
            { scripted ["OK\n"] with writes := ["status\n".toList] })
      ∧ (send_raw_command
          (send_raw_command (some (scripted ["Status: idle\n", "OK\n"]))
            "status".toList).2 "press 1".toList).1 = some API_SUCCESS := by
  decide!

/-! ## The stop shortcut -/

/-- The Double rule on a received line: the line without its trailing carriage
return is `OK`. -/
theorem line_acks_double (line : List Char) :
    line_acks true line = decide (strip_cr line = "OK".toList) := by
  unfold line_acks
  by_cases h : strip_cr line = "OK".toList
  · simp [h]
  · simp only [h, decide_False, Bool.and_false]
    split <;> simp_all

/-- The status of `send_raw_command` does not depend on the write log. -/
theorem send_raw_command_status_log (s s1 : MicrowaveSession)
    (full_command : List Char) (hopen : s1.is_open = s.is_open)
    (hin : s1.incoming = s.incoming) (hw : s1.write_faults = s.write_faults) :
    (send_raw_command (some s1) full_command).1
      = (send_raw_command (some s) full_command).1 := by
  unfold send_raw_command
  simp only [hopen, hin, hw]
  split
  · rfl
  · split
    · rfl
    · split <;> rfl

/-- C11, as the code has it: `stop_microwave` forwards the literal command
`press stop` and returns exactly what `send_microwave_command` returns for it,
for every handle. The command starts with `press`, so on an open session whose
write goes through the call completes under the Double rule: it returns
`API_SUCCESS` when the complete lines the port delivers are lines that are not
`OK` (after removing one trailing carriage return) followed by one that is,
and does not return `API_SUCCESS` when no complete line is `OK`. Its status
depends only on the state of the port at the call (open flag, what the port
delivers, outcome of the write), not on the log of what earlier calls wrote. -/
theorem stop_microwave_exchange (s : MicrowaveSession)
    (hopen : s.is_open = true)
    (hwrite : ∀ f, s.write_faults.head? ≠ some (some f)) :
    (∀ handle, stop_microwave handle
        = send_microwave_command handle (some "press stop".toList))
      ∧ (∀ (pre : List (List Char)) (t rest : List Char),
          (∀ l ∈ pre, '\n' ∉ l ∧ strip_cr l ≠ "OK".toList) →
          '\n' ∉ t → strip_cr t = "OK".toList →
          stream_bytes s.incoming = wire (pre ++ [t]) ++ rest →
          (stop_microwave (some s)).1 = some API_SUCCESS)
      ∧ (∀ (ls : List (List Char)) (tail : List Char),
          (∀ l ∈ ls, '\n' ∉ l ∧ strip_cr l ≠ "OK".toList) →
          '\n' ∉ tail →
          stream_bytes s.incoming = wire ls ++ tail →
          (stop_microwave (some s)).1 ≠ some API_SUCCESS)
      ∧ (∀ s1 : MicrowaveSession, s1.is_open = s.is_open →
          s1.incoming = s.incoming → s1.write_faults = s.write_faults →
          (stop_microwave (some s1)).1 = (stop_microwave (some s)).1) := by
  have hmode : double_mode "press stop".toList = true := by decide
  refine ⟨?_, ?_, ?_, ?_⟩
  · intro handle
    cases handle <;> rfl
  · intro pre t rest hpre ht hacc hs
    have hpre2 : ∀ l ∈ pre, '\n' ∉ l ∧ line_acks true l = false := by
      intro l hl
      refine ⟨(hpre l hl).1, ?_⟩
      rw [line_acks_double]
      exact decide_eq_false (hpre l hl).2
    have hacc2 : line_acks true t = true := by
      rw [line_acks_double]
      exact decide_eq_true hacc
    have hfuel : pre.length < newlines s.incoming + 1 := by
      have := fuel_enough s.incoming (pre ++ [t]) rest hs
      simp only [List.length_append, List.length_singleton] at this
      omega
    obtain ⟨b, evs, hloop, _⟩ :=
      ack_loop_accept true pre (newlines s.incoming + 1) [] s.incoming t rest
        hpre2 ht hacc2 (by simpa using hs) hfuel
    simp only [stop_microwave]
    rw [send_raw_command_open s _ hopen hwrite, hmode, hloop]
  · intro ls tail hls ht hs
    have hls2 : ∀ l ∈ ls, '\n' ∉ l ∧ line_acks true l = false := by
      intro l hl
      refine ⟨(hls l hl).1, ?_⟩
      rw [line_acks_double]
      exact decide_eq_false (hls l hl).2
    have hfuel := fuel_enough s.incoming ls tail hs
    simp only [stop_microwave]
    rw [send_raw_command_open s _ hopen hwrite, hmode]
    rcases ack_loop_reject true ls (newlines s.incoming + 1) [] s.incoming tail
        hls2 ht (by simpa using hs) hfuel with h | ⟨f, evs, h⟩
    · rw [h]; simp
    · rw [h]
      cases f <;> simp [catch_code, API_ERROR_SERIAL_FAIL, API_ERROR_UNKNOWN,
        API_SUCCESS]
  · intro s1 h1 h2 h3
    exact send_raw_command_status_log s s1 _ h1 h2 h3

/-- A stop answered by a blank line, `OK: pressing stop` and `OK`: the call
succeeds. -/
theorem stop_microwave_exchange_witness :
    (stop_microwave (some (scripted ["\r\nOK: pressing stop\r\n", "OK\r\n"]))).1
      = some API_SUCCESS :=
  (stop_microwave_exchange
      (scripted ["\r\nOK: pressing stop\r\n", "OK\r\n"]) rfl
      (fun f => by simp [scripted])).2.1
    ["\r".toList, "OK: pressing stop\r".toList] "OK\r".toList []
    (by decide) (by decide) (by decide) (by decide)

/-- C11 as stated fails on the rule: the line `OK: pressing stop` starts with
`OK`, so it would end a Single exchange (and ends that of `status`), but a
stop answered by it alone never returns; nor does a stop answered by a
`Status:` line. -/
theorem stop_microwave_needs_bare_ok :
    line_acks false "OK: pressing stop\r".toList = true
      ∧ (send_raw_command (some (scripted ["OK: pressing stop\r\n"]))
          "status".toList).1 = some API_SUCCESS
      ∧ (stop_microwave (some (scripted ["OK: pressing stop\r\n"]))).1 = none
      ∧ (stop_microwave (some (scripted ["Status: idle\r\n"]))).1 = none := by
  decide!

/-! ## The startup drain -/

theorem port_cancel_frame (s : DrainState) :
    (port_cancel s).now = s.now ∧ (port_cancel s).max_timer = s.max_timer
      ∧ (port_cancel s).quiet_timer = s.quiet_timer
      ∧ (port_cancel s).done = s.done ∧ (port_cancel s).last_data = s.last_data
      ∧ (port_cancel s).read ≠ .pending := by
  unfold port_cancel
  cases h : s.read <;> simp [h]

/-- No handler moves the clock or touches the hard-cap timer. -/
theorem handlers_frame (s : DrainState) :
    ((max_timer_handler s).now = s.now
        ∧ (max_timer_handler s).max_timer = s.max_timer)
      ∧ ((quiet_timer_handler s).now = s.now
        ∧ (quiet_timer_handler s).max_timer = s.max_timer)
      ∧ ∀ ec n, (read_handler s ec n).now = s.now
        ∧ (read_handler s ec n).max_timer = s.max_timer := by
  refine ⟨?_, ?_, ?_⟩
  · unfold max_timer_handler
    split
    · exact ⟨(port_cancel_frame _).1, (port_cancel_frame _).2.1⟩
    · exact ⟨rfl, rfl⟩
  · unfold quiet_timer_handler
    split
    · exact ⟨rfl, rfl⟩
    · split
      · exact ⟨(port_cancel_frame _).1, (port_cancel_frame _).2.1⟩
      · exact ⟨rfl, rfl⟩
  · intro ec n
    unfold read_handler
    split
    · exact ⟨rfl, rfl⟩
    · split
      · unfold do_read
        split <;> exact ⟨rfl, rfl⟩
      · split
        · exact ⟨rfl, rfl⟩
        · split
          · exact ⟨(port_cancel_frame _).1, (port_cancel_frame _).2.1⟩
          · unfold do_read
            split <;> exact ⟨rfl, rfl⟩

theorem hard_cap_pending_step (s s1 : DrainState) (e : DrainEvent)
    (h : hard_cap_pending s) (hs : drain_step s e = some s1) :
    hard_cap_pending s1 := by
  cases e with
  | max_timer_expires =>
    simp only [drain_step] at hs
    rcases h with h | h
    · rw [h] at hs
      simp only at hs
      split at hs
      · injection hs with hs
        subst hs
        right
        rw [(handlers_frame _).1.1, (handlers_frame _).1.2]
        exact ⟨rfl, Nat.le_refl _⟩
      · simp at hs
    · rw [h.1] at hs
      simp at hs
  | quiet_timer_expires =>
    simp only [drain_step] at hs
    cases hq : s.quiet_timer with
    | none => rw [hq] at hs; simp at hs
    | some t =>
      rw [hq] at hs
      simp only at hs
      split at hs
      · rename_i hc
        injection hs with hs
        subst hs
        rw [hard_cap_pending, (handlers_frame _).2.1.1, (handlers_frame _).2.1.2]
        rcases h with h | h
        · exact Or.inl h
        · exact Or.inr ⟨h.1, Nat.le_trans h.2 hc.1⟩
      · simp at hs
  | read_completes t ec n =>
    simp only [drain_step] at hs
    split at hs
    · rename_i hc
      injection hs with hs
      subst hs
      rw [hard_cap_pending, ((handlers_frame _).2.2 ec n).1,
        ((handlers_frame _).2.2 ec n).2]
      rcases h with h | h
      · exact Or.inl h
      · exact Or.inr ⟨h.1, Nat.le_trans h.2 hc.2.1⟩
    · simp at hs
  | read_aborts =>
    simp only [drain_step] at hs
    split at hs
    · injection hs with hs
      subst hs
      rw [hard_cap_pending, ((handlers_frame _).2.2 _ _).1,
        ((handlers_frame _).2.2 _ _).2]
      exact h
    · simp at hs

theorem hard_cap_pending_run (events : List DrainEvent) :
    ∀ (s s1 : DrainState), hard_cap_pending s →
      drain_run s events = some s1 → hard_cap_pending s1 := by
  induction events with
  | nil =>
    intro s s1 h hs
    simp only [drain_run, Option.some.injEq] at hs
    exact hs ▸ h
  | cons e es ih =>
    intro s s1 h hs
    simp only [drain_run] at hs
    cases he : drain_step s e with
    | none => rw [he] at hs; simp at hs
    | some s2 =>
      rw [he] at hs
      exact ih s2 s1 (hard_cap_pending_step s s2 e h he) hs

/-- Whatever the port does, `io.run()` does not return before the hard-cap
timer has expired. -/
theorem io_run_not_before_cap (events : List DrainEvent) (s : DrainState)
    (hs : drain_run drain_start events = some s)
    (hret : io_run_returns s = true) : max_total ≤ s.now := by
  have h := hard_cap_pending_run events drain_start s (Or.inl rfl) hs
  simp only [io_run_returns, Bool.and_eq_true, decide_eq_true_eq] at hret
  rcases h with h | h
  · rw [hret.1.1] at h
    simp at h
  · exact h.2

/-- Once the drain is done no read is started or accepted: `done` stays, no
read becomes outstanding and `last_data` does not move. -/
theorem done_is_final (s s1 : DrainState) (e : DrainEvent)
    (hdone : s.done = true) (hread : s.read ≠ .pending)
    (hs : drain_step s e = some s1) :
    s1.done = true ∧ s1.read ≠ .pending ∧ s1.last_data = s.last_data := by
  cases e with
  | max_timer_expires =>
    simp only [drain_step] at hs
    split at hs
    · simp at hs
    · split at hs
      · injection hs with hs
        subst hs
        simp [max_timer_handler, hdone, hread]
      · simp at hs
  | quiet_timer_expires =>
    simp only [drain_step] at hs
    split at hs
    · simp at hs
    · split at hs
      · injection hs with hs
        subst hs
        simp [quiet_timer_handler, hdone, hread]
      · simp at hs
  | read_completes t ec n =>
    simp only [drain_step] at hs
    split at hs
    · rename_i hc
      exact absurd hc.1 hread
    · simp at hs
  | read_aborts =>
    simp only [drain_step] at hs
    split at hs
    · injection hs with hs
      subst hs
      simp [read_handler, hdone]
    · simp at hs

/-- The expiry of the hard-cap timer, and an expiry of the quiet timer that
finds the port quiet for a full window, set `done` and cancel the read. -/
theorem deadline_ends_reading (s s1 : DrainState) (hdone : s.done = false) :
    (drain_step s .max_timer_expires = some s1 →
        s1.done = true ∧ s1.read ≠ .pending)
      ∧ (drain_step s .quiet_timer_expires = some s1 →
          quiet_window ≤ s1.now - s.last_data →
          s1.done = true ∧ s1.read ≠ .pending) := by
  constructor
  · intro hs
    simp only [drain_step] at hs
    split at hs
    · simp at hs
    · split at hs
      · injection hs with hs
        subst hs
        simp only [max_timer_handler, hdone, Bool.not_false, if_true]
        exact ⟨(port_cancel_frame _).2.2.2.1, (port_cancel_frame _).2.2.2.2.2⟩
      · simp at hs
  · intro hs hq
    simp only [drain_step] at hs
    split at hs
    · simp at hs
    · rename_i t ht
      split at hs
      · injection hs with hs
        subst hs
        have hnow : (quiet_timer_handler
            { s with now := t, quiet_timer := none }).now = t :=
          (handlers_frame _).2.1.1
        rw [hnow] at hq
        simp only [quiet_timer_handler, hdone, Bool.false_eq_true, if_false,
          ge_iff_le, hq, if_true]
        exact ⟨(port_cancel_frame _).2.2.2.1, (port_cancel_frame _).2.2.2.2.2⟩
      · simp at hs

/-- C12 at its failing inputs. On a silent port the quiet timer expires first,
at 120 ms: the drain is done and the read is cancelled, but the hard-cap wait
is still pending and `io.run()` has not returned; it returns at 400 ms. On any
port `io.run()` returns no earlier than 400 ms. On a port that sends bytes
every 100 ms the hard-cap timer expires first, at 400 ms: the drain is done
and the read is cancelled, but the quiet wait is still pending, and `io.run()`
returns at 480 ms, past the hard cap. And a byte that comes 130 ms after the
one before it is still accepted, the quiet timer having been re-armed for a
full window in between. -/
theorem drain_waits_for_both_timers :
    drain_run drain_start [.quiet_timer_expires]
        = some { now := 120, last_data := 0, done := true,
                 max_timer := some 400, quiet_timer := none, read := .aborted }
      ∧ (drain_run drain_start [.quiet_timer_expires]).map io_run_returns
        = some false
      ∧ drain_run drain_start silent_port
        = some { now := 400, last_data := 0, done := true, max_timer := none,
                 quiet_timer := none, read := .idle }
      ∧ (∀ events s, drain_run drain_start events = some s →
          io_run_returns s = true → 400 ≤ s.now)
      ∧ drain_run drain_start (busy_port.take 8)
        = some { now := 400, last_data := 400, done := true,
                 max_timer := none, quiet_timer := some 480, read := .aborted }
      ∧ drain_run drain_start busy_port
        = some { now := 480, last_data := 400, done := true, max_timer := none,
                 quiet_timer := none, read := .idle }
      ∧ (drain_run drain_start busy_port).map io_run_returns = some true
      ∧ drain_run drain_start late_byte
        = some { now := 230, last_data := 230, done := false,
                 max_timer := some 400, quiet_timer := some 240,
                 read := .pending } := by
  refine ⟨by decide, by decide, by decide, ?_, by decide, by decide, by decide,
    by decide⟩
  intro events s hs hret
  exact io_run_not_before_cap events s hs hret

end ArduinoLink
